import Mathlib

/-!
Verification of the RichEditorLab editing core: a shallow embedding of the
history manager (saveHistory, undo, redo from the editor component), the
table grid model (clearCellSelection, selectCells) and the structural table
edits of the context menu (handleMerge, handleSplit, insertCol), together
with theorems settling the documented testable properties.
-/

namespace RichEditorLab

/-- State of the history manager: the snapshot list and the cursor
(React states history and historyIndex). -/
structure HistoryState where
  history : List String
  historyIndex : Nat
deriving Repr, DecidableEq

/-- Embedding of saveHistory: no-op when the entry at the cursor equals the
committed content; otherwise truncate past the cursor, append, and when the
list exceeds 50 entries shift off the oldest, re-anchoring the cursor to the
new last index. -/
def saveHistory (content : String) (s : HistoryState) : HistoryState :=
  if s.history[s.historyIndex]? = some content then s
  else
    let newHistory := s.history.take (s.historyIndex + 1) ++ [content]
    if newHistory.length > 50 then
      let shifted := newHistory.drop 1
      { history := shifted, historyIndex := shifted.length - 1 }
    else
      { history := newHistory, historyIndex := newHistory.length - 1 }

/-- Embedding of the undo branch of handleAction: decrement the cursor when
it is positive, otherwise do nothing. -/
def undo (s : HistoryState) : HistoryState :=
  if 0 < s.historyIndex then { s with historyIndex := s.historyIndex - 1 } else s

/-- Embedding of the redo branch of handleAction: increment the cursor when
it is strictly below the last index, otherwise do nothing. -/
def redo (s : HistoryState) : HistoryState :=
  if s.historyIndex + 1 < s.history.length then
    { s with historyIndex := s.historyIndex + 1 }
  else s

/-- Content shown at the history cursor (history[historyIndex]). -/
def currentContent (s : HistoryState) : Option String :=
  s.history[s.historyIndex]?

/-- Committing a sequence of contents one after the other. -/
def commitAll (cs : List String) (s : HistoryState) : HistoryState :=
  cs.foldl (fun t c => saveHistory c t) s

lemma saveHistory_eq (s : HistoryState) (c : String)
    (hlt : s.historyIndex < s.history.length)
    (h : s.history[s.historyIndex]? ≠ some c) :
    saveHistory c s =
      if s.historyIndex + 2 > 50 then
        ⟨(s.history.take (s.historyIndex + 1) ++ [c]).drop 1, s.historyIndex⟩
      else ⟨s.history.take (s.historyIndex + 1) ++ [c], s.historyIndex + 1⟩ := by
  have hlen : (s.history.take (s.historyIndex + 1) ++ [c]).length
      = s.historyIndex + 2 := by
    simp [List.length_take, Nat.min_eq_left (Nat.succ_le_of_lt hlt)]
  unfold saveHistory
  rw [if_neg h]
  by_cases hc : s.historyIndex + 2 > 50
  · rw [if_pos (by simpa [hlen] using hc), if_pos hc]
    simp [hlen]
  · rw [if_neg (by simpa [hlen] using hc), if_neg hc]
    simp [hlen]

/-- C4: committing the content already shown at the cursor is a no-op: the
whole history state (sequence and cursor) is unchanged. -/
theorem c4_commit_idempotent (s : HistoryState) (c : String)
    (h : s.history[s.historyIndex]? = some c) : saveHistory c s = s := by
  simp [saveHistory, h]

theorem c4_commit_idempotent_witness :
    (⟨["a"], 0⟩ : HistoryState).history[(⟨["a"], 0⟩ : HistoryState).historyIndex]?
        = some "a" ∧
      saveHistory "a" ⟨["a"], 0⟩ = ⟨["a"], 0⟩ :=
  ⟨by rfl, c4_commit_idempotent ⟨["a"], 0⟩ "a" (by rfl)⟩

/-- C3: from history [C0, C1] with the cursor moved back to C0 by undo,
committing a new content C2 discards C1 (the sequence becomes [C0, C2] with
the cursor at C2) and a subsequent redo is a no-op. -/
theorem c3_redo_truncation (c0 c1 c2 : String) (h : c2 ≠ c0) :
    undo ⟨[c0, c1], 1⟩ = ⟨[c0, c1], 0⟩ ∧
    saveHistory c2 ⟨[c0, c1], 0⟩ = ⟨[c0, c2], 1⟩ ∧
    redo ⟨[c0, c2], 1⟩ = ⟨[c0, c2], 1⟩ := by
  refine ⟨by simp [undo], ?_, by simp [redo]⟩
  simp [saveHistory, Ne.symm h]

theorem c3_redo_truncation_witness :
    undo ⟨["a", "b"], 1⟩ = ⟨["a", "b"], 0⟩ ∧
    saveHistory "c" ⟨["a", "b"], 0⟩ = ⟨["a", "c"], 1⟩ ∧
    redo ⟨["a", "c"], 1⟩ = ⟨["a", "c"], 1⟩ :=
  c3_redo_truncation "a" "b" "c" (by decide)

/-- C2: committing a distinct content c1 over current entry c0, undo makes
c0 current; redo makes c1 current again; a further redo at the last index is
a no-op, as is undo at index 0. -/
theorem c2_undo_redo_roundtrip (s : HistoryState) (c0 c1 : String)
    (hcur : s.history[s.historyIndex]? = some c0) (hne : c1 ≠ c0) :
    currentContent (undo (saveHistory c1 s)) = some c0 ∧
    currentContent (redo (undo (saveHistory c1 s))) = some c1 ∧
    redo (redo (undo (saveHistory c1 s))) = redo (undo (saveHistory c1 s)) ∧
    (∀ t : HistoryState, t.historyIndex = 0 → undo t = t) := by
  have hlt : s.historyIndex < s.history.length := by
    have := List.getElem?_eq_some.mp hcur
    exact this.1
  have hc : s.history[s.historyIndex]? ≠ some c1 := by
    rw [hcur]; simpa using (Ne.symm hne)
  rw [saveHistory_eq s c1 hlt hc]
  have htail : ∀ t : HistoryState, t.historyIndex = 0 → undo t = t := by
    intro t ht
    simp [undo, ht]
  set idx := s.historyIndex with hidx
  have hlen : (s.history.take (idx + 1) ++ [c1]).length = idx + 2 := by
    simp [List.length_take, Nat.min_eq_left (Nat.succ_le_of_lt hlt)]
  set L := s.history.take (idx + 1) ++ [c1] with hL
  have gmid : L[idx]? = some c0 := by
    rw [hL, List.getElem?_append_left (by rw [List.length_take]; omega),
      List.getElem?_take_of_lt (by omega)]
    exact hcur
  have gtop : L[idx + 1]? = some c1 := by
    rw [hL, List.getElem?_append_right (by rw [List.length_take]; omega)]
    simp [List.length_take, Nat.min_eq_left (Nat.succ_le_of_lt hlt)]
  by_cases hb : idx + 2 > 50
  · rw [if_pos hb]
    have hpos : 0 < idx := by omega
    have hA : (L.drop 1).length = idx + 1 := by simp [hlen]
    have e1 : undo ⟨L.drop 1, idx⟩ = ⟨L.drop 1, idx - 1⟩ := by
      simp [undo, hpos]
    have e2 : redo ⟨L.drop 1, idx - 1⟩ = ⟨L.drop 1, idx⟩ := by
      simp only [redo, hA]
      rw [if_pos (by omega)]
      congr 1
      omega
    have e3 : redo ⟨L.drop 1, idx⟩ = ⟨L.drop 1, idx⟩ := by
      simp only [redo, hA]
      rw [if_neg (by omega)]
    have g1 : currentContent ⟨L.drop 1, idx - 1⟩ = some c0 := by
      simp only [currentContent]
      rw [List.getElem?_drop]
      have : 1 + (idx - 1) = idx := by omega
      rw [this, gmid]
    have g2 : currentContent ⟨L.drop 1, idx⟩ = some c1 := by
      simp only [currentContent]
      rw [List.getElem?_drop]
      have : 1 + idx = idx + 1 := by omega
      rw [this, gtop]
    exact ⟨by rw [e1, g1], by rw [e1, e2, g2], by rw [e1, e2]; exact e3, htail⟩
  · rw [if_neg hb]
    have e1 : undo ⟨L, idx + 1⟩ = ⟨L, idx⟩ := by
      simp [undo]
    have e2 : redo ⟨L, idx⟩ = ⟨L, idx + 1⟩ := by
      simp only [redo, hlen]
      rw [if_pos (by omega)]
    have e3 : redo ⟨L, idx + 1⟩ = ⟨L, idx + 1⟩ := by
      simp only [redo, hlen]
      rw [if_neg (by omega)]
    have g1 : currentContent ⟨L, idx⟩ = some c0 := by
      simpa only [currentContent] using gmid
    have g2 : currentContent ⟨L, idx + 1⟩ = some c1 := by
      simpa only [currentContent] using gtop
    exact ⟨by rw [e1, g1], by rw [e1, e2, g2], by rw [e1, e2]; exact e3, htail⟩

theorem c2_undo_redo_roundtrip_witness :
    currentContent (undo (saveHistory "b" ⟨["a"], 0⟩)) = some "a" ∧
    currentContent (redo (undo (saveHistory "b" ⟨["a"], 0⟩))) = some "b" ∧
    redo (redo (undo (saveHistory "b" ⟨["a"], 0⟩)))
      = redo (undo (saveHistory "b" ⟨["a"], 0⟩)) ∧
    (∀ t : HistoryState, t.historyIndex = 0 → undo t = t) :=
  c2_undo_redo_roundtrip ⟨["a"], 0⟩ "a" "b" (by rfl) (by decide)

/-- Invariant of reachable history states: nonempty sequence, cursor at the
last index, at most 50 entries. -/
def goodState (s : HistoryState) : Prop :=
  s.history ≠ [] ∧ s.historyIndex = s.history.length - 1 ∧ s.history.length ≤ 50

lemma saveHistory_good (s : HistoryState) (c : String) (hg : goodState s)
    (hlast : s.history.getLast? ≠ some c) :
    saveHistory c s = ⟨s.history.drop (s.history.length + 1 - 50) ++ [c],
      s.history.length - (s.history.length + 1 - 50)⟩ := by
  obtain ⟨hne, hidx, hle⟩ := hg
  have hpos : 0 < s.history.length := List.length_pos.mpr hne
  have hlt : s.historyIndex < s.history.length := by omega
  have hguard : s.history[s.historyIndex]? ≠ some c := by
    rwa [hidx, ← List.getLast?_eq_getElem?]
  rw [saveHistory_eq s c hlt hguard]
  have htake : s.history.take (s.historyIndex + 1) = s.history := by
    have : s.historyIndex + 1 = s.history.length := by omega
    rw [this, List.take_length]
  rw [htake]
  by_cases hb : s.historyIndex + 2 > 50
  · rw [if_pos hb]
    have hd : s.history.length + 1 - 50 = 1 := by omega
    rw [hd, List.drop_append_of_le_length (by omega)]
    simp only [HistoryState.mk.injEq]
    exact ⟨trivial, by omega⟩
  · rw [if_neg hb]
    have hd : s.history.length + 1 - 50 = 0 := by omega
    rw [hd]
    simp only [List.drop_zero, HistoryState.mk.injEq]
    exact ⟨trivial, by omega⟩

lemma saveHistory_good_good (s : HistoryState) (c : String) (hg : goodState s)
    (hlast : s.history.getLast? ≠ some c) : goodState (saveHistory c s) := by
  rw [saveHistory_good s c hg hlast]
  obtain ⟨hne, hidx, hle⟩ := hg
  have hpos : 0 < s.history.length := List.length_pos.mpr hne
  refine ⟨by simp, ?_, ?_⟩
  · simp only [List.length_append, List.length_drop, List.length_cons,
      List.length_nil]
    omega
  · simp only [List.length_append, List.length_drop, List.length_cons,
      List.length_nil]
    omega

lemma commitAll_cons (c : String) (cs : List String) (s : HistoryState) :
    commitAll (c :: cs) s = commitAll cs (saveHistory c s) := rfl

lemma saveHistory_length_le (c : String) (s : HistoryState)
    (h : s.history.length ≤ 50) : (saveHistory c s).history.length ≤ 50 := by
  simp only [saveHistory]
  split_ifs with h1 h2
  · exact h
  · simp only [List.length_append, List.length_drop, List.length_take,
      List.length_cons, List.length_nil]
    omega
  · simp only [List.length_append, List.length_take, List.length_cons,
      List.length_nil] at h2 ⊢
    omega

lemma commitAll_length_le (cs : List String) (s : HistoryState)
    (h : s.history.length ≤ 50) : (commitAll cs s).history.length ≤ 50 := by
  induction cs generalizing s with
  | nil => exact h
  | cons c cs ih => exact ih _ (saveHistory_length_le c s h)

lemma commitAll_chain (cs : List String) (s : HistoryState) (hg : goodState s)
    (hhd : ∀ c, cs.head? = some c → s.history.getLast? ≠ some c)
    (hch : List.Chain' (· ≠ ·) cs) :
    (commitAll cs s).history
        = (s.history ++ cs).drop ((s.history ++ cs).length - 50) ∧
      goodState (commitAll cs s) := by
  induction cs generalizing s with
  | nil =>
    obtain ⟨hne, hidx, hle⟩ := hg
    refine ⟨?_, hne, hidx, hle⟩
    simp only [commitAll, List.foldl_nil, List.append_nil]
    rw [Nat.sub_eq_zero_of_le hle, List.drop_zero]
  | cons c cs ih =>
    have hlast : s.history.getLast? ≠ some c := hhd c rfl
    have hstep := saveHistory_good s c hg hlast
    have hstepg := saveHistory_good_good s c hg hlast
    obtain ⟨hne, hidx, hle⟩ := hg
    have hpos : 0 < s.history.length := List.length_pos.mpr hne
    rw [commitAll_cons]
    obtain ⟨hch1, hch2⟩ := List.chain'_cons'.mp hch
    have hlast' : (saveHistory c s).history.getLast? = some c := by
      rw [hstep]
      exact List.getLast?_concat _
    have hhd' : ∀ c', cs.head? = some c' →
        (saveHistory c s).history.getLast? ≠ some c' := by
      intro c' hc'
      rw [hlast']
      intro hcontra
      exact (hch1 c' hc') (by simpa using hcontra)
    obtain ⟨ihEq, ihGood⟩ := ih (saveHistory c s) hstepg hhd' hch2
    refine ⟨?_, ihGood⟩
    rw [ihEq, hstep]
    simp only
    set d := s.history.length + 1 - 50 with hd
    have hdle : d ≤ s.history.length := by omega
    have h1 : s.history.drop d ++ [c] ++ cs = s.history.drop d ++ (c :: cs) := by
      simp
    rw [h1, ← List.drop_append_of_le_length hdle, List.drop_drop]
    congr 1
    simp only [List.length_append, List.length_drop, List.length_cons]
    omega

/-- C1: the history is bounded by 50 entries; committing 60 pairwise
distinct contents from the freshly initialized state leaves exactly 50
entries, the cursor at the last index 49, and the entries equal to the most
recent 50 committed contents in order. -/
theorem c1_history_bound (i0 : String) (cs : List String)
    (hlen : cs.length = 60) (hnd : cs.Nodup) :
    (commitAll cs ⟨[i0], 0⟩).history.length = 50 ∧
    (commitAll cs ⟨[i0], 0⟩).historyIndex = 49 ∧
    (commitAll cs ⟨[i0], 0⟩).history = cs.drop 10 ∧
    (∀ ds : List String, ∀ t : HistoryState, t.history.length ≤ 50 →
      (commitAll ds t).history.length ≤ 50) := by
  have hinit : goodState ⟨[i0], 0⟩ := ⟨by simp, by simp, by simp⟩
  have hch : List.Chain' (· ≠ ·) cs := List.Pairwise.chain' hnd
  match cs, hlen with
  | c :: cs', hlen =>
  have hlen' : cs'.length = 59 := by simpa using hlen
  obtain ⟨hcnotin, hnd'⟩ := List.nodup_cons.mp hnd
  by_cases hc : c = i0
  · have hnoop : saveHistory c ⟨[i0], 0⟩ = ⟨[i0], 0⟩ := by
      apply c4_commit_idempotent
      simp [hc]
    rw [commitAll_cons, hnoop]
    have hhd : ∀ c', cs'.head? = some c' →
        (⟨[i0], 0⟩ : HistoryState).history.getLast? ≠ some c' := by
      intro c' hc'
      have hmem : c' ∈ cs' := List.mem_of_mem_head? hc'
      have : c' ≠ c := fun h => hcnotin (h ▸ hmem)
      simp only [List.getLast?_singleton]
      intro hcontra
      exact this (by simpa [hc] using hcontra.symm)
    obtain ⟨hEq, hGood⟩ := commitAll_chain cs' ⟨[i0], 0⟩ hinit hhd
      (List.Pairwise.chain' hnd')
    have hEq' : (commitAll cs' ⟨[i0], 0⟩).history = (c :: cs').drop 10 := by
      rw [hEq]
      have : ([i0] ++ cs').length - 50 = 10 := by simp [hlen']
      rw [this, hc]
      rfl
    obtain ⟨hne2, hidx2, hle2⟩ := hGood
    have hlength : (commitAll cs' ⟨[i0], 0⟩).history.length = 50 := by
      rw [hEq']
      simp [hlen']
    exact ⟨hlength, by rw [hidx2, hlength], hEq',
      fun ds t ht => commitAll_length_le ds t ht⟩
  · have hhd : ∀ c', (c :: cs').head? = some c' →
        (⟨[i0], 0⟩ : HistoryState).history.getLast? ≠ some c' := by
      intro c' hc'
      have : c' = c := by simpa using hc'.symm
      simp only [List.getLast?_singleton]
      intro hcontra
      exact hc (by simpa [this] using hcontra.symm)
    obtain ⟨hEq, hGood⟩ := commitAll_chain (c :: cs') ⟨[i0], 0⟩ hinit hhd hch
    have hEq' : (commitAll (c :: cs') ⟨[i0], 0⟩).history
        = (c :: cs').drop 10 := by
      rw [hEq]
      have : ([i0] ++ (c :: cs')).length - 50 = 11 := by simp [hlen']
      rw [this]
      rfl
    obtain ⟨hne2, hidx2, hle2⟩ := hGood
    have hlength : (commitAll (c :: cs') ⟨[i0], 0⟩).history.length = 50 := by
      rw [hEq']
      simp [hlen']
    exact ⟨hlength, by rw [hidx2, hlength], hEq',
      fun ds t ht => commitAll_length_le ds t ht⟩

/-- Sixty pairwise distinct contents used to witness the history bound. -/
def distinctContents60 : List String :=
  (List.range 60).map (fun n => String.mk (List.replicate n 'a'))

theorem c1_history_bound_witness :
    (commitAll distinctContents60 ⟨["x"], 0⟩).history.length = 50 ∧
    (commitAll distinctContents60 ⟨["x"], 0⟩).historyIndex = 49 ∧
    (commitAll distinctContents60 ⟨["x"], 0⟩).history
      = distinctContents60.drop 10 ∧
    (∀ ds : List String, ∀ t : HistoryState, t.history.length ≤ 50 →
      (commitAll ds t).history.length ≤ 50) :=
  c1_history_bound "x" distinctContents60
    (by simp [distinctContents60])
    (by
      apply List.Nodup.map _ (List.nodup_range 60)
      intro a b hab
      have hdata := congrArg String.data hab
      simp only at hdata
      have hlenr := congrArg List.length hdata
      simpa using hlenr)

/-- A table cell element: its tag name, class attribute (apart from the
selection marker class, modelled by the separate selected flag), inline
style text, inner markup, and the colspan and rowspan attributes (absent or
a value, read with default 1 as the code does via parseInt). -/
structure Cell where
  tag : String
  className : String
  style : String
  html : String
  selected : Bool
  colspan : Option Nat
  rowspan : Option Nat
deriving Repr, DecidableEq

/-- A table row: the list of its cell children. -/
abbrev TableRow := List Cell

/-- A table: the list of its rows. -/
abbrev Table := List TableRow

/-- The editor document restricted to what the table operations see: the
list of its tables in document order. -/
abbrev Doc := List Table

/-- Identification of a cell element by its position: index of its table in
the document, of its row in the table, of the cell in the row. -/
structure CellRef where
  t : Nat
  r : Nat
  c : Nat
deriving Repr, DecidableEq

/-- Indexed map: like List.map, but the function also receives the index of
its argument, starting from i. -/
def mapI {α β : Type} (f : Nat → α → β) : Nat → List α → List β
  | _, [] => []
  | i, a :: as => f i a :: mapI f (i + 1) as

/-- The cell element a reference denotes, when it exists. -/
def cellAt (d : Doc) (q : CellRef) : Option Cell :=
  d[q.t]?.bind fun tb => tb[q.r]?.bind fun row => row[q.c]?

/-- Embedding of clearCellSelection: drop the selection marker class from
every cell of the editor. -/
def clearCellSelection (d : Doc) : Doc :=
  d.map fun tb => tb.map fun row => row.map fun cell =>
    { cell with selected := false }

/-- Embedding of getCellGridPosition: row index of the closest row within
its table and child index of the cell in the row, absent when the cell is
not inside a table of the document. -/
def getCellGridPosition (d : Doc) (q : CellRef) : Option (Nat × Nat × Nat) :=
  match cellAt d q with
  | some _ => some (q.r, q.c, q.t)
  | none => none

/-- Embedding of selectCells: clear the previous selection, compute the two
grid positions, return early when one is missing or the tables differ, and
tag every existing cell of the inclusive min/max rectangle. -/
def selectCells (d : Doc) (a b : CellRef) : Doc :=
  let cleared := clearCellSelection d
  match getCellGridPosition cleared a, getCellGridPosition cleared b with
  | some (sr, sc, st), some (er, ec, et) =>
    if st ≠ et then cleared
    else
      let minRow := Nat.min sr er
      let maxRow := Nat.max sr er
      let minCol := Nat.min sc ec
      let maxCol := Nat.max sc ec
      mapI (fun ti tb =>
        if ti = st then
          mapI (fun ri row =>
            if minRow ≤ ri ∧ ri ≤ maxRow then
              mapI (fun ci cell =>
                if minCol ≤ ci ∧ ci ≤ maxCol then
                  { cell with selected := true }
                else cell) 0 row
            else row) 0 tb
        else tb) 0 cleared
  | _, _ => cleared

/-- References of the cells tagged selected, in document order (the order
querySelectorAll returns them). -/
def selectedRefs (d : Doc) : List CellRef :=
  (mapI (fun t tb =>
    (mapI (fun r row =>
      (mapI (fun c cell =>
        if cell.selected then [CellRef.mk t r c] else []) 0 row).flatten) 0 tb).flatten) 0 d).flatten

/-- Plain text content of simple markup: characters outside angle-bracket
tags (the textContent of a cell whose markup has no nested elements). -/
def stripTags (s : String) : String :=
  (((s.toList.foldl (fun (acc : List Char × Bool) ch =>
      match acc, ch with
      | (out, false), '<' => (out, true)
      | (out, true), '>' => (out, false)
      | (out, true), _ => (out, true)
      | (out, false), c => (c :: out, false)) ([], false)).1).reverse).asString

/-- Leading and trailing whitespace removal (the trim of the platform
string type, written over character lists). -/
def jsTrim (s : String) : String :=
  String.mk
    (((s.toList.dropWhile Char.isWhitespace).reverse.dropWhile
      Char.isWhitespace).reverse)

/-- The merged content appended to the anchor: for every other selected
cell in document order whose text content is nonempty after trimming, a
space followed by that cell markup. -/
def mergeExtra (d : Doc) (others : List CellRef) : String :=
  others.foldl (fun acc q =>
    match cellAt d q with
    | some cell =>
      if jsTrim (stripTags cell.html) ≠ "" then acc ++ " " ++ cell.html
      else acc
    | none => acc) ""

/-- The least row index among the selected positions (the fold the code
runs with an infinite initial bound, written with the first element as the
initial accumulator). -/
def rectMinRow : List CellRef → Nat
  | [] => 0
  | p :: ps => ps.foldl (fun m q => Nat.min m q.r) p.r

/-- The greatest row index among the selected positions. -/
def rectMaxRow : List CellRef → Nat
  | [] => 0
  | p :: ps => ps.foldl (fun m q => Nat.max m q.r) p.r

/-- The least column index among the selected positions. -/
def rectMinCol : List CellRef → Nat
  | [] => 0
  | p :: ps => ps.foldl (fun m q => Nat.min m q.c) p.c

/-- The greatest column index among the selected positions. -/
def rectMaxCol : List CellRef → Nat
  | [] => 0
  | p :: ps => ps.foldl (fun m q => Nat.max m q.c) p.c

/-- The update handleMerge applies to the anchor cell: write the spans when
they exceed 1, append the merged content, drop the selection tag. -/
def mergeUpd (colSpan rowSpan : Nat) (extra : String) (cell : Cell) : Cell :=
  { cell with
      colspan := if colSpan > 1 then some colSpan else cell.colspan,
      rowspan := if rowSpan > 1 then some rowSpan else cell.rowspan,
      html := cell.html ++ extra,
      selected := false }

/-- The fate of one cell in the rebuild pass of handleMerge: the anchor is
replaced by its updated version, the other selected cells are removed, any
further cell is kept. -/
def mergeRebuildCell (anchor : CellRef) (others : List CellRef)
    (upd : Cell → Cell) (ti ri ci : Nat) (cell : Cell) : List Cell :=
  if CellRef.mk ti ri ci = anchor then [upd cell]
  else if CellRef.mk ti ri ci ∈ others then []
  else [cell]

/-- Embedding of handleMerge: no-op below 2 selected cells; compute the
bounding rectangle of the selected positions (per own table, as the code
does); anchor is the first selected cell sitting at (minRow, minCol), no-op
when absent; write colspan/rowspan on the anchor when the span exceeds 1,
append the other selected cells with nonempty text, remove the other
selected cells and untag the anchor. -/
def handleMerge (d : Doc) : Doc :=
  let selected := selectedRefs d
  if selected.length < 2 then d
  else
    match selected with
    | [] => d
    | p :: ps =>
      let minRow := rectMinRow (p :: ps)
      let maxRow := rectMaxRow (p :: ps)
      let minCol := rectMinCol (p :: ps)
      let maxCol := rectMaxCol (p :: ps)
      let rowSpan := maxRow - minRow + 1
      let colSpan := maxCol - minCol + 1
      match (p :: ps).find? (fun q => q.r = minRow ∧ q.c = minCol) with
      | none => d
      | some anchor =>
        let others := (p :: ps).filter (fun q => q ≠ anchor)
        let extra := mergeExtra d others
        mapI (fun ti tb =>
          mapI (fun ri row =>
            (mapI (mergeRebuildCell anchor others
              (mergeUpd colSpan rowSpan extra) ti ri) 0 row).flatten) 0 tb) 0 d

/-- Embedding of handleSplit on a target cell: no-op when the colspan
attribute read with default 1 is at most 1; otherwise remove colspan from
the cell and insert colspan - 1 shallow clones right after it, with empty
content and without span or selection markers. -/
def handleSplit (d : Doc) (q : CellRef) : Doc :=
  match cellAt d q with
  | none => d
  | some cell =>
    let colspan := cell.colspan.getD 1
    if colspan ≤ 1 then d
    else
      let newCell : Cell :=
        { tag := cell.tag, className := cell.className, style := cell.style,
          html := "<br>", selected := false, colspan := none, rowspan := none }
      mapI (fun ti tb =>
        if ti = q.t then
          mapI (fun ri row =>
            if ri = q.r then
              row.take q.c ++ [{ cell with colspan := none }]
                ++ List.replicate (colspan - 1) newCell ++ row.drop (q.c + 1)
            else row) 0 tb
        else tb) 0 d

/-- The fresh cell insertCol synthesizes from the reference cell of a row:
same tag, class and style, empty content, no span and no selection marker. -/
def newColCell (ref : Cell) : Cell :=
  { tag := ref.tag, className := ref.className, style := ref.style,
    html := "<br>", selected := false, colspan := none, rowspan := none }

/-- Embedding of the per-row step of insertCol: rows without a child at the
reference index are skipped; otherwise a fresh cell modeled from the child
at that index is inserted before or after it. -/
def insertColInRow (before : Bool) (cellIndex : Nat) (tr : TableRow) : TableRow :=
  if tr.length ≤ cellIndex then tr
  else
    match tr[cellIndex]? with
    | none => tr
    | some ref =>
      let pos := if before then cellIndex else cellIndex + 1
      tr.take pos ++ [newColCell ref] ++ tr.drop pos

/-- Embedding of insertCol on the table of the target cell, the target
sitting at child index cellIndex of its row. -/
def insertCol (before : Bool) (cellIndex : Nat) (tb : Table) : Table :=
  tb.map (insertColInRow before cellIndex)

lemma mapI_length {α β : Type} (f : Nat → α → β) (i : Nat) (l : List α) :
    (mapI f i l).length = l.length := by
  induction l generalizing i with
  | nil => rfl
  | cons a as ih => simp [mapI, ih]

lemma mapI_getElem? {α β : Type} (f : Nat → α → β) (i n : Nat) (l : List α) :
    (mapI f i l)[n]? = (l[n]?).map (f (i + n)) := by
  induction l generalizing i n with
  | nil => simp [mapI]
  | cons a as ih =>
    cases n with
    | zero => simp [mapI]
    | succ m =>
      simp only [mapI, List.getElem?_cons_succ, ih (i + 1) m]
      have h1 : i + 1 + m = i + (m + 1) := by omega
      rw [h1]

lemma mapI_append {α β : Type} (f : Nat → α → β) (i : Nat) (l₁ l₂ : List α) :
    mapI f i (l₁ ++ l₂) = mapI f i l₁ ++ mapI f (i + l₁.length) l₂ := by
  induction l₁ generalizing i with
  | nil => simp [mapI]
  | cons a as ih =>
    simp only [List.cons_append, mapI, List.append_eq, ih (i + 1),
      List.length_cons]
    have h1 : i + 1 + as.length = i + (as.length + 1) := by omega
    rw [h1]

lemma mem_mapI {α β : Type} (f : Nat → α → β) (i : Nat) (l : List α) (x : β) :
    x ∈ mapI f i l ↔ ∃ n a, l[n]? = some a ∧ x = f (i + n) a := by
  induction l generalizing i with
  | nil => simp [mapI]
  | cons a as ih =>
    simp only [mapI, List.mem_cons, ih (i + 1)]
    constructor
    · rintro (rfl | ⟨n, b, hn, rfl⟩)
      · exact ⟨0, a, by simp⟩
      · refine ⟨n + 1, b, by simpa using hn, ?_⟩
        have h1 : i + (n + 1) = i + 1 + n := by omega
        rw [h1]
    · rintro ⟨n, b, hn, rfl⟩
      cases n with
      | zero =>
        simp only [List.getElem?_cons_zero, Option.some.injEq] at hn
        subst hn
        exact Or.inl (by rw [Nat.add_zero])
      | succ m =>
        refine Or.inr ⟨m, b, by simpa using hn, ?_⟩
        have h1 : i + (m + 1) = i + 1 + m := by omega
        rw [h1]

lemma mapI_map {α β γ : Type} (f : Nat → β → γ) (g : α → β) (i : Nat)
    (l : List α) : mapI f i (l.map g) = mapI (fun n a => f n (g a)) i l := by
  induction l generalizing i with
  | nil => rfl
  | cons a as ih => simp [mapI, ih]

lemma flatten_mapI_nil {α β : Type} (f : Nat → α → List β) (i : Nat)
    (l : List α) (h : ∀ n a, f n a = []) : (mapI f i l).flatten = [] := by
  induction l generalizing i with
  | nil => rfl
  | cons a as ih => simp [mapI, h, ih]

lemma cellAt_clear (d : Doc) (q : CellRef) :
    cellAt (clearCellSelection d) q
      = (cellAt d q).map (fun cell => { cell with selected := false }) := by
  unfold cellAt clearCellSelection
  rw [List.getElem?_map]
  cases htb : d[q.t]? with
  | none => simp
  | some tb =>
    simp only [Option.map_some', Option.some_bind]
    rw [List.getElem?_map]
    cases hrow : tb[q.r]? with
    | none => simp
    | some row =>
      simp only [Option.map_some', Option.some_bind]
      rw [List.getElem?_map]

lemma getCellGridPosition_clear (d : Doc) (q : CellRef)
    (h : (cellAt d q).isSome) :
    getCellGridPosition (clearCellSelection d) q = some (q.r, q.c, q.t) := by
  unfold getCellGridPosition
  rw [cellAt_clear]
  cases hc : cellAt d q with
  | none => rw [hc] at h; simp at h
  | some cell => rfl

/-- C5: for two cells of the same table, the rectangular selection tags the
same cells whatever the order of its two endpoint arguments. -/
theorem c5_select_rectangle_symmetric (d : Doc) (a b : CellRef)
    (ha : (cellAt d a).isSome) (hb : (cellAt d b).isSome) (ht : a.t = b.t) :
    selectCells d a b = selectCells d b a := by
  obtain ⟨ta, ra, ca⟩ := a
  obtain ⟨tb, rb, cb⟩ := b
  simp only at ht
  subst ht
  simp only [selectCells]
  rw [getCellGridPosition_clear d _ ha, getCellGridPosition_clear d _ hb]
  simp only
  rw [if_neg (by simp), if_neg (by simp)]
  simp only [Nat.min_comm rb ra, Nat.max_comm rb ra, Nat.min_comm cb ca,
    Nat.max_comm cb ca]

theorem c5_select_rectangle_symmetric_witness :
    (cellAt [[[(⟨"td", "", "", "x", false, none, none⟩ : Cell),
        ⟨"td", "", "", "y", false, none, none⟩]]] ⟨0, 0, 0⟩).isSome ∧
    (cellAt [[[(⟨"td", "", "", "x", false, none, none⟩ : Cell),
        ⟨"td", "", "", "y", false, none, none⟩]]] ⟨0, 0, 1⟩).isSome ∧
    selectCells [[[(⟨"td", "", "", "x", false, none, none⟩ : Cell),
        ⟨"td", "", "", "y", false, none, none⟩]]] ⟨0, 0, 0⟩ ⟨0, 0, 1⟩
      = selectCells [[[(⟨"td", "", "", "x", false, none, none⟩ : Cell),
        ⟨"td", "", "", "y", false, none, none⟩]]] ⟨0, 0, 1⟩ ⟨0, 0, 0⟩ :=
  ⟨by decide, by decide,
    c5_select_rectangle_symmetric _ ⟨0, 0, 0⟩ ⟨0, 0, 1⟩ (by decide) (by decide)
      rfl⟩

lemma selectedRefs_clear (d : Doc) :
    selectedRefs (clearCellSelection d) = [] := by
  unfold selectedRefs clearCellSelection
  rw [mapI_map]
  apply flatten_mapI_nil
  intro t tb
  rw [mapI_map]
  apply flatten_mapI_nil
  intro r row
  rw [mapI_map]
  apply flatten_mapI_nil
  intro c cell
  rfl

/-- C10: selecting a rectangle between cells of two different tables clears
the previous selection, detects the table mismatch, and tags nothing: the
document ends with zero selected cells. -/
theorem c10_cross_table_selection_lost (d : Doc) (a b : CellRef)
    (ha : (cellAt d a).isSome) (hb : (cellAt d b).isSome) (ht : a.t ≠ b.t) :
    selectCells d a b = clearCellSelection d ∧
    selectedRefs (selectCells d a b) = [] := by
  have hsel : selectCells d a b = clearCellSelection d := by
    simp only [selectCells]
    rw [getCellGridPosition_clear d _ ha, getCellGridPosition_clear d _ hb]
    simp only
    rw [if_pos ht]
  exact ⟨hsel, by rw [hsel, selectedRefs_clear]⟩

theorem c10_cross_table_selection_lost_witness :
    (cellAt [[[(⟨"td", "", "", "x", true, none, none⟩ : Cell)]],
        [[⟨"td", "", "", "y", false, none, none⟩]]] ⟨0, 0, 0⟩).isSome ∧
    (cellAt [[[(⟨"td", "", "", "x", true, none, none⟩ : Cell)]],
        [[⟨"td", "", "", "y", false, none, none⟩]]] ⟨1, 0, 0⟩).isSome ∧
    (0 : Nat) ≠ 1 ∧
    selectCells [[[(⟨"td", "", "", "x", true, none, none⟩ : Cell)]],
        [[⟨"td", "", "", "y", false, none, none⟩]]] ⟨0, 0, 0⟩ ⟨1, 0, 0⟩
      = clearCellSelection [[[(⟨"td", "", "", "x", true, none, none⟩ : Cell)]],
        [[⟨"td", "", "", "y", false, none, none⟩]]] ∧
    selectedRefs (selectCells [[[(⟨"td", "", "", "x", true, none, none⟩ : Cell)]],
        [[⟨"td", "", "", "y", false, none, none⟩]]] ⟨0, 0, 0⟩ ⟨1, 0, 0⟩) = [] :=
  ⟨by decide, by decide, by decide,
    (c10_cross_table_selection_lost _ ⟨0, 0, 0⟩ ⟨1, 0, 0⟩ (by decide) (by decide)
      (by decide)).1,
    (c10_cross_table_selection_lost _ ⟨0, 0, 0⟩ ⟨1, 0, 0⟩ (by decide) (by decide)
      (by decide)).2⟩

/-- Two one-cell tables whose single cells are both tagged selected. -/
def twoTableDoc : Doc :=
  [[[⟨"td", "", "", "A", true, none, none⟩]],
   [[⟨"td", "", "", "B", true, none, none⟩]]]

/-- C6 counterexample: with two selected cells sitting in two different
tables, handleMerge does not reject the input; it mutates the document
(here it removes the cell of the second table and merges its content). -/
theorem c6_merge_cross_table_counterexample :
    (selectedRefs twoTableDoc).length = 2 ∧
    (∃ q1 ∈ selectedRefs twoTableDoc, ∃ q2 ∈ selectedRefs twoTableDoc,
      q1.t ≠ q2.t) ∧
    handleMerge twoTableDoc ≠ twoTableDoc := by
  refine ⟨by decide, ⟨⟨0, 0, 0⟩, by decide, ⟨1, 0, 0⟩, by decide, by decide⟩,
    by decide⟩

/-- C6 amended: with fewer than 2 selected cells handleMerge returns the
document unchanged; the cross-table case is not detected and can mutate. -/
theorem c6_merge_rejects_small_selection (d : Doc)
    (h : (selectedRefs d).length < 2) : handleMerge d = d := by
  simp only [handleMerge]
  rw [if_pos h]

/-- One table whose single cell is tagged selected. -/
def oneSelectedDoc : Doc := [[[⟨"td", "", "", "A", true, none, none⟩]]]

theorem c6_merge_rejects_small_selection_witness :
    (selectedRefs oneSelectedDoc).length < 2 ∧
    handleMerge oneSelectedDoc = oneSelectedDoc :=
  ⟨by decide, c6_merge_rejects_small_selection oneSelectedDoc (by decide)⟩

/-- C9: inserting a column at the child index of the reference cell adds
exactly one fresh cell (same tag, class and style as the row cell at that
index, empty content, no span and no selection attributes) to every row
with a child at that index, at the chosen side, leaving the other cells in
place; rows too short for the index are left unmodified. -/
theorem c9_insert_column_scope (before : Bool) (tb : Table)
    (cellIndex tRow : Nat) (targetRow : TableRow)
    (htr : tb[tRow]? = some targetRow) (htc : cellIndex < targetRow.length) :
    (insertCol before cellIndex tb).length = tb.length ∧
    (∀ (j : Nat) (row : TableRow), tb[j]? = some row → row.length ≤ cellIndex →
      (insertCol before cellIndex tb)[j]? = some row) ∧
    (∀ (j : Nat) (row : TableRow) (refc : Cell), tb[j]? = some row →
      row[cellIndex]? = some refc →
      ∃ row2 : TableRow, (insertCol before cellIndex tb)[j]? = some row2 ∧
        row2.length = row.length + 1 ∧
        row2[if before then cellIndex else cellIndex + 1]?
          = some ⟨refc.tag, refc.className, refc.style, "<br>",
              false, none, none⟩ ∧
        row2.take (if before then cellIndex else cellIndex + 1)
          = row.take (if before then cellIndex else cellIndex + 1) ∧
        row2.drop ((if before then cellIndex else cellIndex + 1) + 1)
          = row.drop (if before then cellIndex else cellIndex + 1)) := by
  refine ⟨by simp [insertCol], ?_, ?_⟩
  · intro j row hj hshort
    unfold insertCol
    rw [List.getElem?_map, hj]
    simp only [Option.map_some']
    unfold insertColInRow
    rw [if_pos hshort]
  · intro j row refc hj hrefc
    have hlt : cellIndex < row.length := (List.getElem?_eq_some.mp hrefc).1
    set pos := if before then cellIndex else cellIndex + 1 with hpos
    have hposle : pos ≤ row.length := by
      rw [hpos]
      cases before <;> simp <;> omega
    refine ⟨row.take pos ++ [newColCell refc] ++ row.drop pos, ?_, ?_, ?_, ?_, ?_⟩
    · unfold insertCol
      rw [List.getElem?_map, hj]
      simp only [Option.map_some']
      unfold insertColInRow
      rw [if_neg (by omega), hrefc]
    · simp only [List.length_append, List.length_take, List.length_drop,
        List.length_cons, List.length_nil]
      omega
    · have hA : (row.take pos ++ [newColCell refc]).length = pos + 1 := by
        simp only [List.length_append, List.length_take, List.length_cons,
          List.length_nil]
        omega
      rw [List.append_assoc]
      rw [List.getElem?_append_right (by rw [List.length_take]; omega)]
      have h0 : pos - (row.take pos).length = 0 := by
        rw [List.length_take]
        omega
      rw [h0]
      simp [newColCell]
    · rw [List.append_assoc,
        List.take_left' (by rw [List.length_take]; omega)]
    · rw [List.append_assoc]
      have hA : (row.take pos).length = pos := by
        rw [List.length_take]
        omega
      have h1 : pos + 1 = (row.take pos).length + 1 := by omega
      rw [h1, List.drop_append]
      simp

theorem c9_insert_column_scope_witness :
    ([[(⟨"td", "x", "", "a", false, none, none⟩ : Cell),
        ⟨"td", "y", "", "b", false, none, none⟩], [⟨"td", "z", "", "c", false, none, none⟩]] :
      Table)[0]? = some [⟨"td", "x", "", "a", false, none, none⟩,
        ⟨"td", "y", "", "b", false, none, none⟩] ∧
    (1 : Nat) < 2 ∧
    (insertCol false 1 [[(⟨"td", "x", "", "a", false, none, none⟩ : Cell),
        ⟨"td", "y", "", "b", false, none, none⟩],
        [⟨"td", "z", "", "c", false, none, none⟩]]).length = 2 ∧
    (insertCol false 1 [[(⟨"td", "x", "", "a", false, none, none⟩ : Cell),
        ⟨"td", "y", "", "b", false, none, none⟩],
        [⟨"td", "z", "", "c", false, none, none⟩]])[1]?
      = some [⟨"td", "z", "", "c", false, none, none⟩] := by
  have h := c9_insert_column_scope false
    [[⟨"td", "x", "", "a", false, none, none⟩,
      ⟨"td", "y", "", "b", false, none, none⟩],
     [⟨"td", "z", "", "c", false, none, none⟩]] 1 0
    [⟨"td", "x", "", "a", false, none, none⟩,
     ⟨"td", "y", "", "b", false, none, none⟩] (by decide) (by decide)
  exact ⟨by decide, by decide, h.1,
    h.2.1 1 [⟨"td", "z", "", "c", false, none, none⟩] (by decide) (by decide)⟩

/-- C8: merging a 1 by 2 selection sets colspan 2 on the anchor and removes
the second cell; splitting the anchor afterwards removes the span attribute
and inserts one freshly cloned empty cell right after it, preserving tag
and class while stripping span and selection markers, which restores two
cells with no span attribute; splitting a cell whose colspan is at most 1
is a no-op. -/
theorem c8_merge_split_inverse (a b : Cell)
    (hsa : a.selected = true) (hsb : b.selected = true)
    (hra : a.rowspan = none) :
    (∃ m : Cell, handleMerge [[[a, b]]] = [[[m]]] ∧
      m.colspan = some 2 ∧ m.rowspan = none ∧ m.tag = a.tag ∧
      m.className = a.className ∧ m.style = a.style ∧ m.selected = false ∧
      ∃ x y : Cell, handleSplit (handleMerge [[[a, b]]]) ⟨0, 0, 0⟩ = [[[x, y]]] ∧
        x.colspan = none ∧ x.rowspan = none ∧
        y.colspan = none ∧ y.rowspan = none ∧
        y.html = "<br>" ∧ y.tag = a.tag ∧ y.className = a.className ∧
        y.selected = false) ∧
    (∀ (d : Doc) (q : CellRef) (cell : Cell), cellAt d q = some cell →
      cell.colspan.getD 1 ≤ 1 → handleSplit d q = d) := by
  have hsel : selectedRefs [[[a, b]]] = [⟨0, 0, 0⟩, ⟨0, 0, 1⟩] := by
    simp [selectedRefs, mapI, hsa, hsb]
  have hmerge : handleMerge [[[a, b]]]
      = [[[⟨a.tag, a.className, a.style,
            a.html ++ mergeExtra [[[a, b]]] [⟨0, 0, 1⟩], false, some 2,
            none⟩]]] := by
    simp only [handleMerge, hsel]
    norm_num [rectMinRow, rectMaxRow, rectMinCol, rectMaxCol, mergeRebuildCell, mergeUpd, List.foldl, List.find?, List.filter, mapI, hra]
  have hsplit : handleSplit (handleMerge [[[a, b]]]) ⟨0, 0, 0⟩
      = [[[⟨a.tag, a.className, a.style,
             a.html ++ mergeExtra [[[a, b]]] [⟨0, 0, 1⟩], false, none, none⟩,
           ⟨a.tag, a.className, a.style, "<br>", false, none, none⟩]]] := by
    rw [hmerge]
    simp [handleSplit, cellAt, mapI, List.replicate]
  constructor
  · exact ⟨_, hmerge, rfl, rfl, rfl, rfl, rfl, rfl,
      _, _, hsplit, rfl, rfl, rfl, rfl, rfl, rfl, rfl, rfl⟩
  · intro d q cell hcell hle
    simp only [handleSplit, hcell]
    rw [if_pos hle]

theorem c8_merge_split_inverse_witness :
    (∃ m : Cell,
      handleMerge [[[(⟨"td", "k", "", "x", true, none, none⟩ : Cell),
          ⟨"td", "k", "", "y", true, none, none⟩]]] = [[[m]]] ∧
      m.colspan = some 2 ∧ m.rowspan = none ∧ m.tag = "td" ∧
      m.className = "k" ∧ m.style = "" ∧ m.selected = false ∧
      ∃ x y : Cell,
        handleSplit (handleMerge [[[(⟨"td", "k", "", "x", true, none, none⟩ : Cell),
            ⟨"td", "k", "", "y", true, none, none⟩]]]) ⟨0, 0, 0⟩ = [[[x, y]]] ∧
        x.colspan = none ∧ x.rowspan = none ∧
        y.colspan = none ∧ y.rowspan = none ∧
        y.html = "<br>" ∧ y.tag = "td" ∧ y.className = "k" ∧
        y.selected = false) ∧
    (∀ (d : Doc) (q : CellRef) (cell : Cell), cellAt d q = some cell →
      cell.colspan.getD 1 ≤ 1 → handleSplit d q = d) :=
  c8_merge_split_inverse ⟨"td", "k", "", "x", true, none, none⟩
    ⟨"td", "k", "", "y", true, none, none⟩ rfl rfl rfl

lemma mem_rowRefs (t r : Nat) (row : TableRow) (q : CellRef) :
    q ∈ (mapI (fun c cell =>
        if cell.selected then [CellRef.mk t r c] else []) 0 row).flatten
      ↔ q.t = t ∧ q.r = r ∧
        ∃ cell, row[q.c]? = some cell ∧ cell.selected = true := by
  rw [List.mem_flatten]
  constructor
  · rintro ⟨L, hL, hq⟩
    rw [mem_mapI] at hL
    obtain ⟨n, cell, hn, rfl⟩ := hL
    simp only [Nat.zero_add] at hq
    by_cases hs : cell.selected = true
    · rw [if_pos hs] at hq
      simp only [List.mem_singleton] at hq
      subst hq
      exact ⟨rfl, rfl, cell, hn, hs⟩
    · rw [if_neg hs] at hq
      simp at hq
  · rintro ⟨ht, hr, cell, hc, hs⟩
    obtain ⟨tq, rq, cq⟩ := q
    simp only at ht hr hc
    refine ⟨[CellRef.mk tq rq cq], ?_, by simp⟩
    rw [mem_mapI]
    refine ⟨cq, cell, hc, ?_⟩
    rw [if_pos hs, Nat.zero_add, ht, hr]

lemma mem_tableRefs (t : Nat) (tb : Table) (q : CellRef) :
    q ∈ (mapI (fun r row =>
        (mapI (fun c cell =>
          if cell.selected then [CellRef.mk t r c] else []) 0 row).flatten)
        0 tb).flatten
      ↔ q.t = t ∧ ∃ row, tb[q.r]? = some row ∧
          ∃ cell, row[q.c]? = some cell ∧ cell.selected = true := by
  rw [List.mem_flatten]
  constructor
  · rintro ⟨L, hL, hq⟩
    rw [mem_mapI] at hL
    obtain ⟨n, row, hn, rfl⟩ := hL
    simp only [Nat.zero_add] at hq
    rw [mem_rowRefs] at hq
    obtain ⟨ht, hr, cell, hc, hs⟩ := hq
    exact ⟨ht, row, by rw [hr]; exact hn, cell, hc, hs⟩
  · rintro ⟨ht, row, hrow, cell, hc, hs⟩
    refine ⟨_, (mem_mapI _ 0 tb _).mpr ⟨q.r, row, hrow, rfl⟩, ?_⟩
    simp only [Nat.zero_add]
    rw [mem_rowRefs]
    exact ⟨ht, rfl, cell, hc, hs⟩

/-- A reference is among the selected references exactly when it denotes a
cell that carries the selection tag. -/
lemma mem_selectedRefs (d : Doc) (q : CellRef) :
    q ∈ selectedRefs d
      ↔ ∃ tb, d[q.t]? = some tb ∧ ∃ row, tb[q.r]? = some row ∧
          ∃ cell, row[q.c]? = some cell ∧ cell.selected = true := by
  unfold selectedRefs
  rw [List.mem_flatten]
  constructor
  · rintro ⟨L, hL, hq⟩
    rw [mem_mapI] at hL
    obtain ⟨n, tb, hn, rfl⟩ := hL
    simp only [Nat.zero_add] at hq
    rw [mem_tableRefs] at hq
    obtain ⟨ht, row, hrow, cell, hc, hs⟩ := hq
    exact ⟨tb, by rw [ht]; exact hn, row, hrow, cell, hc, hs⟩
  · rintro ⟨tb, htb, row, hrow, cell, hc, hs⟩
    refine ⟨_, (mem_mapI _ 0 d _).mpr ⟨q.t, tb, htb, rfl⟩, ?_⟩
    simp only [Nat.zero_add]
    rw [mem_tableRefs]
    exact ⟨rfl, row, hrow, cell, hc, hs⟩

/-- The selection flag of the cell a selected reference denotes. -/
lemma mem_selectedRefs_cellAt (d : Doc) (q : CellRef) :
    q ∈ selectedRefs d
      ↔ ∃ cell, cellAt d q = some cell ∧ cell.selected = true := by
  rw [mem_selectedRefs]
  unfold cellAt
  constructor
  · rintro ⟨tb, htb, row, hrow, cell, hc, hs⟩
    exact ⟨cell, by rw [htb, Option.some_bind, hrow, Option.some_bind, hc],
      hs⟩
  · rintro ⟨cell, hcell, hs⟩
    cases htb : d[q.t]? with
    | none => rw [htb] at hcell; simp at hcell
    | some tb =>
      rw [htb, Option.some_bind] at hcell
      cases hrow : tb[q.r]? with
      | none => rw [hrow] at hcell; simp at hcell
      | some row =>
        rw [hrow, Option.some_bind] at hcell
        exact ⟨tb, rfl, row, hrow, cell, hcell, hs⟩

lemma rowRefs_c_lb (t r : Nat) (row : TableRow) (i : Nat) (q : CellRef)
    (h : q ∈ (mapI (fun c cell =>
        if cell.selected then [CellRef.mk t r c] else []) i row).flatten) :
    i ≤ q.c ∧ q.t = t ∧ q.r = r := by
  rw [List.mem_flatten] at h
  obtain ⟨L, hL, hq⟩ := h
  rw [mem_mapI] at hL
  obtain ⟨n, cell, hn, rfl⟩ := hL
  by_cases hs : cell.selected = true
  · rw [if_pos hs] at hq
    simp only [List.mem_singleton] at hq
    subst hq
    exact ⟨Nat.le_add_right i n, rfl, rfl⟩
  · rw [if_neg hs] at hq
    simp at hq

lemma rowRefs_nodup (t r : Nat) (row : TableRow) (i : Nat) :
    ((mapI (fun c cell =>
      if cell.selected then [CellRef.mk t r c] else []) i row).flatten).Nodup := by
  induction row generalizing i with
  | nil => simp [mapI]
  | cons cell cells ih =>
    simp only [mapI, List.flatten_cons]
    rw [List.nodup_append]
    refine ⟨?_, ih (i + 1), ?_⟩
    · by_cases hs : cell.selected = true
      · rw [if_pos hs]; simp
      · rw [if_neg hs]; simp
    · intro q hq1 hq2
      have h2 := (rowRefs_c_lb t r cells (i + 1) q hq2).1
      by_cases hs : cell.selected = true
      · rw [if_pos hs] at hq1
        simp only [List.mem_singleton] at hq1
        subst hq1
        simp at h2
      · rw [if_neg hs] at hq1
        simp at hq1

lemma tableRefs_r_lb (t : Nat) (tb : Table) (i : Nat) (q : CellRef)
    (h : q ∈ (mapI (fun r row =>
        (mapI (fun c cell =>
          if cell.selected then [CellRef.mk t r c] else []) 0 row).flatten)
        i tb).flatten) :
    i ≤ q.r ∧ q.t = t := by
  rw [List.mem_flatten] at h
  obtain ⟨L, hL, hq⟩ := h
  rw [mem_mapI] at hL
  obtain ⟨n, row, hn, rfl⟩ := hL
  have := rowRefs_c_lb t (i + n) row 0 q hq
  refine ⟨?_, this.2.1⟩
  rw [this.2.2]
  omega

lemma tableRefs_nodup (t : Nat) (tb : Table) (i : Nat) :
    ((mapI (fun r row =>
      (mapI (fun c cell =>
        if cell.selected then [CellRef.mk t r c] else []) 0 row).flatten)
      i tb).flatten).Nodup := by
  induction tb generalizing i with
  | nil => simp [mapI]
  | cons row rows ih =>
    simp only [mapI, List.flatten_cons]
    rw [List.nodup_append]
    refine ⟨rowRefs_nodup t i row 0, ih (i + 1), ?_⟩
    intro q hq1 hq2
    have h1 := rowRefs_c_lb t i row 0 q hq1
    have h2 := tableRefs_r_lb t rows (i + 1) q hq2
    omega

lemma docRefs_t_lb (d : Doc) (i : Nat) (q : CellRef)
    (h : q ∈ (mapI (fun t tb =>
        (mapI (fun r row =>
          (mapI (fun c cell =>
            if cell.selected then [CellRef.mk t r c] else []) 0 row).flatten)
          0 tb).flatten) i d).flatten) :
    i ≤ q.t := by
  rw [List.mem_flatten] at h
  obtain ⟨L, hL, hq⟩ := h
  rw [mem_mapI] at hL
  obtain ⟨n, tb, hn, rfl⟩ := hL
  have := tableRefs_r_lb (i + n) tb 0 q hq
  rw [this.2]
  omega

/-- The selected references are pairwise distinct (positions strictly
increase in document order). -/
lemma selectedRefs_nodup (d : Doc) : (selectedRefs d).Nodup := by
  unfold selectedRefs
  induction d with
  | nil => simp [mapI]
  | cons tb tbs ih =>
    have key : ∀ (i : Nat), ((mapI (fun t tb =>
        (mapI (fun r row =>
          (mapI (fun c cell =>
            if cell.selected then [CellRef.mk t r c] else []) 0 row).flatten)
          0 tb).flatten) i (tb :: tbs)).flatten).Nodup := by
      clear ih
      induction (tb :: tbs) with
      | nil => simp [mapI]
      | cons tb2 tbs2 ih2 =>
        intro i
        simp only [mapI, List.flatten_cons]
        rw [List.nodup_append]
        refine ⟨tableRefs_nodup i tb2 0, ih2 (i + 1), ?_⟩
        intro q hq1 hq2
        have h1 := tableRefs_r_lb i tb2 0 q hq1
        have h2 := docRefs_t_lb tbs2 (i + 1) q hq2
        omega
    exact key 0

lemma foldl_min_le (f : CellRef → Nat) (l : List CellRef) (a : Nat) :
    l.foldl (fun m q => Nat.min m (f q)) a ≤ a := by
  induction l generalizing a with
  | nil => simp [List.foldl]
  | cons x xs ih =>
    exact le_trans (ih (Nat.min a (f x))) (Nat.min_le_left _ _)

lemma foldl_min_le_mem (f : CellRef → Nat) (l : List CellRef) (q : CellRef)
    (h : q ∈ l) : ∀ a, l.foldl (fun m p => Nat.min m (f p)) a ≤ f q := by
  induction l with
  | nil => simp at h
  | cons x xs ih =>
    intro a
    rcases List.mem_cons.mp h with rfl | hmem
    · exact le_trans (foldl_min_le f xs _) (Nat.min_le_right _ _)
    · exact ih hmem _

/-- Every selected reference sits at or below the computed least row. -/
lemma rectMinRow_le (sel : List CellRef) (q : CellRef) (h : q ∈ sel) :
    rectMinRow sel ≤ q.r := by
  cases sel with
  | nil => simp at h
  | cons p ps =>
    rcases List.mem_cons.mp h with rfl | hmem
    · exact foldl_min_le _ ps _
    · exact foldl_min_le_mem _ ps q hmem _

/-- Every selected reference sits at or right of the computed least
column. -/
lemma rectMinCol_le (sel : List CellRef) (q : CellRef) (h : q ∈ sel) :
    rectMinCol sel ≤ q.c := by
  cases sel with
  | nil => simp at h
  | cons p ps =>
    rcases List.mem_cons.mp h with rfl | hmem
    · exact foldl_min_le _ ps _
    · exact foldl_min_le_mem _ ps q hmem _

lemma mergeRebuild_getElem_anchor (anchor : CellRef) (others : List CellRef)
    (upd : Cell → Cell) (ti ri : Nat) (row : TableRow) (i k : Nat)
    (acell : Cell) (hk : row[k]? = some acell)
    (hbefore : ∀ ci, ci < k → CellRef.mk ti ri (i + ci) ≠ anchor ∧
      CellRef.mk ti ri (i + ci) ∉ others)
    (hat : CellRef.mk ti ri (i + k) = anchor) :
    ((mapI (mergeRebuildCell anchor others upd ti ri) i row).flatten)[k]?
      = some (upd acell) := by
  induction row generalizing i k with
  | nil => simp at hk
  | cons cell cells ih =>
    cases k with
    | zero =>
      simp only [List.getElem?_cons_zero, Option.some.injEq] at hk
      subst hk
      simp only [Nat.add_zero] at hat
      simp only [mapI, List.flatten_cons, mergeRebuildCell]
      rw [if_pos hat]
      simp
    | succ m =>
      have h0 := hbefore 0 (by omega)
      simp only [Nat.add_zero] at h0
      simp only [mapI, List.flatten_cons, mergeRebuildCell]
      rw [if_neg h0.1, if_neg h0.2]
      simp only [List.cons_append, List.nil_append, List.getElem?_cons_succ]
      refine ih (i + 1) m (by simpa using hk) ?_ ?_
      · intro ci hci
        have := hbefore (ci + 1) (by omega)
        have harith : i + (ci + 1) = i + 1 + ci := by omega
        rwa [harith] at this
      · have harith : i + (m + 1) = i + 1 + m := by omega
        rwa [harith] at hat

lemma mergeRebuild_balance (sel : List CellRef) (anchor : CellRef)
    (others : List CellRef) (upd : Cell → Cell) (ti ri : Nat)
    (row : TableRow) (i : Nat)
    (hothers : ∀ q, q ∈ others ↔ q ∈ sel ∧ q ≠ anchor)
    (hanchormem : anchor ∈ sel)
    (hselrow : ∀ ci (cell : Cell), row[ci]? = some cell →
      (cell.selected = true ↔ CellRef.mk ti ri (i + ci) ∈ sel)) :
    ((mapI (mergeRebuildCell anchor others upd ti ri) i row).flatten).length
      + (((mapI (fun c cell =>
          if cell.selected then [CellRef.mk ti ri c] else []) i row).flatten).filter
          (fun q => q ≠ anchor)).length
      = row.length := by
  induction row generalizing i with
  | nil => simp [mapI]
  | cons cell cells ih =>
    have h0 : cell.selected = true ↔ CellRef.mk ti ri i ∈ sel := by
      have := hselrow 0 cell (by simp)
      simpa using this
    have hrest := ih (i + 1) (by
      intro ci cell2 hc
      have := hselrow (ci + 1) cell2 (by simpa using hc)
      have harith : i + (ci + 1) = i + 1 + ci := by omega
      rwa [harith] at this)
    simp only [mapI, List.flatten_cons, List.filter_append, List.length_append,
      List.length_cons]
    have hhead : (mergeRebuildCell anchor others upd ti ri i cell).length
        + (((if cell.selected then [CellRef.mk ti ri i] else []).filter
            (fun q => q ≠ anchor)).length) = 1 := by
      unfold mergeRebuildCell
      by_cases ha : CellRef.mk ti ri i = anchor
      · rw [if_pos ha]
        have hs : cell.selected = true := h0.mpr (ha ▸ hanchormem)
        rw [if_pos hs]
        simp [List.filter, ha]
      · rw [if_neg ha]
        by_cases ho : CellRef.mk ti ri i ∈ others
        · rw [if_pos ho]
          have hs : cell.selected = true := h0.mpr ((hothers _).mp ho).1
          rw [if_pos hs]
          simp [List.filter, ha]
        · rw [if_neg ho]
          have hs : ¬ cell.selected = true := by
            intro hs
            exact ho ((hothers _).mpr ⟨h0.mp hs, ha⟩)
          rw [if_neg hs]
          simp
    omega

lemma mergeRebuild_unselected (anchor : CellRef) (others : List CellRef)
    (upd : Cell → Cell) (ti ri : Nat) (row : TableRow) (i : Nat)
    (hupd : ∀ cell : Cell, (upd cell).selected = false)
    (hkeep : ∀ ci (cell : Cell), row[ci]? = some cell →
      cell.selected = true → CellRef.mk ti ri (i + ci) = anchor ∨
        CellRef.mk ti ri (i + ci) ∈ others) :
    ∀ cell' ∈ (mapI (mergeRebuildCell anchor others upd ti ri) i row).flatten,
      cell'.selected = false := by
  intro c' hc'
  rw [List.mem_flatten] at hc'
  obtain ⟨L, hL, hcL⟩ := hc'
  rw [mem_mapI] at hL
  obtain ⟨n, cell, hn, rfl⟩ := hL
  unfold mergeRebuildCell at hcL
  by_cases ha : CellRef.mk ti ri (i + n) = anchor
  · rw [if_pos ha] at hcL
    simp only [List.mem_singleton] at hcL
    subst hcL
    exact hupd cell
  · rw [if_neg ha] at hcL
    by_cases ho : CellRef.mk ti ri (i + n) ∈ others
    · rw [if_pos ho] at hcL
      simp at hcL
    · rw [if_neg ho] at hcL
      simp only [List.mem_singleton] at hcL
      subst hcL
      cases hs : c'.selected with
      | false => rfl
      | true =>
        rcases hkeep n c' hn hs with h | h
        · exact absurd h ha
        · exact absurd h ho

lemma mergeRebuild_table_balance (sel : List CellRef) (anchor : CellRef)
    (others : List CellRef) (upd : Cell → Cell) (ti : Nat) (tb : Table)
    (i : Nat)
    (hothers : ∀ q, q ∈ others ↔ q ∈ sel ∧ q ≠ anchor)
    (hanchormem : anchor ∈ sel)
    (hseltb : ∀ (n : Nat) (row : TableRow), tb[n]? = some row →
      ∀ ci (cell : Cell), row[ci]? = some cell →
        (cell.selected = true ↔ CellRef.mk ti (i + n) ci ∈ sel)) :
    ((mapI (fun ri row =>
        (mapI (mergeRebuildCell anchor others upd ti ri) 0 row).flatten)
        i tb).map List.length).sum
      + (((mapI (fun r row =>
          (mapI (fun c cell =>
            if cell.selected then [CellRef.mk ti r c] else []) 0 row).flatten)
          i tb).flatten).filter (fun q => q ≠ anchor)).length
      = (tb.map List.length).sum := by
  induction tb generalizing i with
  | nil => simp [mapI]
  | cons row rows ih =>
    have hhead := mergeRebuild_balance sel anchor others upd ti i row 0
      hothers hanchormem (by
        intro ci cell hc
        have := hseltb 0 row (by simp) ci cell hc
        simpa using this)
    have hrest := ih (i + 1) (by
      intro n row2 hn ci cell hc
      have := hseltb (n + 1) row2 (by simpa using hn) ci cell hc
      have harith : i + (n + 1) = i + 1 + n := by omega
      rwa [harith] at this)
    simp only [mapI, List.map_cons, List.sum_cons, List.flatten_cons,
      List.filter_append, List.length_append]
    omega

lemma mergeRebuild_doc_balance (sel : List CellRef) (anchor : CellRef)
    (others : List CellRef) (upd : Cell → Cell) (d : Doc) (i : Nat)
    (hothers : ∀ q, q ∈ others ↔ q ∈ sel ∧ q ≠ anchor)
    (hanchormem : anchor ∈ sel)
    (hseldoc : ∀ (m : Nat) (tb : Table), d[m]? = some tb →
      ∀ (n : Nat) (row : TableRow), tb[n]? = some row →
        ∀ ci (cell : Cell), row[ci]? = some cell →
          (cell.selected = true ↔ CellRef.mk (i + m) n ci ∈ sel)) :
    ((mapI (fun ti tb =>
        mapI (fun ri row =>
          (mapI (mergeRebuildCell anchor others upd ti ri) 0 row).flatten)
          0 tb) i d).map (fun tb => (tb.map List.length).sum)).sum
      + (((mapI (fun t tb =>
          (mapI (fun r row =>
            (mapI (fun c cell =>
              if cell.selected then [CellRef.mk t r c] else []) 0 row).flatten)
            0 tb).flatten) i d).flatten).filter (fun q => q ≠ anchor)).length
      = (d.map (fun tb => (tb.map List.length).sum)).sum := by
  induction d generalizing i with
  | nil => simp [mapI]
  | cons tb tbs ih =>
    have hhead := mergeRebuild_table_balance sel anchor others upd i tb 0
      hothers hanchormem (by
        intro n row hn ci cell hc
        have := hseldoc 0 tb (by simp) n row hn ci cell hc
        simpa using this)
    have hrest := ih (i + 1) (by
      intro m tb2 hm n row hn ci cell hc
      have := hseldoc (m + 1) tb2 (by simpa using hm) n row hn ci cell hc
      have harith : i + (m + 1) = i + 1 + m := by omega
      rwa [harith] at this)
    simp only [mapI, List.map_cons, List.sum_cons, List.flatten_cons,
      List.filter_append, List.length_append]
    omega

lemma filter_ne_length_of_nodup (l : List CellRef) (a : CellRef)
    (hnd : l.Nodup) (ha : a ∈ l) :
    (l.filter (fun q => q ≠ a)).length = l.length - 1 := by
  have h1 : List.filter (fun q => q ≠ a) l = l.erase a := by
    rw [List.Nodup.erase_eq_filter hnd a]
    apply List.filter_congr
    intro x _
    by_cases hx : x = a <;> simp [hx]
  rw [h1, List.length_erase_of_mem ha]

/-- Total number of cells in the document. -/
def totalCells (d : Doc) : Nat :=
  (d.map (fun tb => (tb.map List.length).sum)).sum

/-- The top left corner of the bounding rectangle of a selection inside a
given table: the anchor position handleMerge looks for. -/
def anchorPos (sel : List CellRef) (T : Nat) : CellRef :=
  ⟨T, rectMinRow sel, rectMinCol sel⟩

/-- A freshly inserted 3 by 3 table: every cell an empty placeholder. -/
def table3Doc : Doc :=
  [List.replicate 3 (List.replicate 3
    (⟨"td", "", "", "<br>", false, none, none⟩ : Cell))]

/-- The 3 by 3 table with the rectangle between cells (0,0) and (1,1)
tagged selected. -/
def tagged3Doc : Doc := selectCells table3Doc ⟨0, 0, 0⟩ ⟨0, 1, 1⟩

/-- C7 amended: for a selection of at least 2 tagged cells lying in one
table that includes the top left corner of its bounding rectangle (the
corner cell carrying no previous span attributes), handleMerge turns that
corner cell into the anchor: its colspan/rowspan values become the
rectangle width/height, the content of the other selected cells is appended
(space joined, nonempty text only), the anchor is untagged, no tagged cell
remains, and exactly the other selected cells are removed from the
document; in the 3 by 3 scenario the anchor gets colspan 2 and rowspan 2
and the first two rows drop from 3 and 3 cells to 2 and 1. -/
theorem c7_merge_postcondition (d : Doc) (T : Nat) (acell : Cell)
    (hlen : 2 ≤ (selectedRefs d).length)
    (hT : ∀ q ∈ selectedRefs d, q.t = T)
    (htop : anchorPos (selectedRefs d) T ∈ selectedRefs d)
    (hacell : cellAt d (anchorPos (selectedRefs d) T) = some acell)
    (hcsp : acell.colspan = none) (hrsp : acell.rowspan = none) :
    (∃ mcell : Cell,
      cellAt (handleMerge d) (anchorPos (selectedRefs d) T) = some mcell ∧
      mcell.colspan.getD 1
        = rectMaxCol (selectedRefs d) - rectMinCol (selectedRefs d) + 1 ∧
      mcell.rowspan.getD 1
        = rectMaxRow (selectedRefs d) - rectMinRow (selectedRefs d) + 1 ∧
      mcell.selected = false ∧ mcell.tag = acell.tag ∧
      mcell.className = acell.className ∧ mcell.style = acell.style ∧
      mcell.html = acell.html ++ mergeExtra d ((selectedRefs d).filter
        (fun q => q ≠ anchorPos (selectedRefs d) T))) ∧
    selectedRefs (handleMerge d) = [] ∧
    totalCells (handleMerge d) + ((selectedRefs d).length - 1)
      = totalCells d ∧
    cellAt (handleMerge tagged3Doc) ⟨0, 0, 0⟩
      = some ⟨"td", "", "", "<br>", false, some 2, some 2⟩ ∧
    ((table3Doc.getD 0 []).take 2).map List.length = [3, 3] ∧
    (((handleMerge tagged3Doc).getD 0 []).take 2).map List.length = [2, 1] := by
  rcases hsplit : selectedRefs d with _ | ⟨p, ps⟩
  · rw [hsplit] at hlen
    simp at hlen
  rw [hsplit] at hlen hT htop hacell
  have hnotlt : ¬ (p :: ps).length < 2 := by omega
  have hfind : ∃ a, (p :: ps).find?
      (fun q => q.r = rectMinRow (p :: ps) ∧ q.c = rectMinCol (p :: ps))
      = some a := by
    rw [← Option.isSome_iff_exists, List.find?_isSome]
    exact ⟨anchorPos (p :: ps) T, htop, by simp [anchorPos]⟩
  obtain ⟨a, ha⟩ := hfind
  have hamem : a ∈ p :: ps := List.mem_of_find?_eq_some ha
  have hapred := List.find?_some ha
  simp only [decide_eq_true_eq] at hapred
  have haA : a = anchorPos (p :: ps) T := by
    have haT := hT a hamem
    calc a = ⟨a.t, a.r, a.c⟩ := rfl
    _ = anchorPos (p :: ps) T := by
        rw [haT, hapred.1, hapred.2]
        rfl
  subst haA
  have hres : handleMerge d
      = mapI (fun ti tb =>
          mapI (fun ri row =>
            (mapI (mergeRebuildCell (anchorPos (p :: ps) T)
              ((p :: ps).filter (fun q => q ≠ anchorPos (p :: ps) T))
              (mergeUpd (rectMaxCol (p :: ps) - rectMinCol (p :: ps) + 1)
                (rectMaxRow (p :: ps) - rectMinRow (p :: ps) + 1)
                (mergeExtra d ((p :: ps).filter
                  (fun q => q ≠ anchorPos (p :: ps) T))))
              ti ri) 0 row).flatten) 0 tb) 0 d := by
    simp only [handleMerge, hsplit]
    rw [if_neg hnotlt, ha]
  have hothers : ∀ q, q ∈ (p :: ps).filter
      (fun q => q ≠ anchorPos (p :: ps) T)
      ↔ q ∈ (p :: ps) ∧ q ≠ anchorPos (p :: ps) T := by
    intro q
    rw [List.mem_filter]
    simp
  have hseldoc : ∀ (m : Nat) (tb : Table), d[m]? = some tb →
      ∀ (n : Nat) (row : TableRow), tb[n]? = some row →
        ∀ ci (cell : Cell), row[ci]? = some cell →
          (cell.selected = true ↔ CellRef.mk m n ci ∈ p :: ps) := by
    intro m tb htb n row hrow ci cell hc
    rw [← hsplit, mem_selectedRefs]
    constructor
    · intro hs
      exact ⟨tb, htb, row, hrow, cell, hc, hs⟩
    · rintro ⟨tb2, htb2, row2, hrow2, cell2, hc2, hs2⟩
      simp only at htb2 hrow2 hc2
      rw [htb] at htb2
      obtain rfl : tb2 = tb := by simpa using htb2.symm
      rw [hrow] at hrow2
      obtain rfl : row2 = row := by simpa using hrow2.symm
      rw [hc] at hc2
      obtain rfl : cell2 = cell := by simpa using hc2.symm
      exact hs2
  refine ⟨?_, ?_, ?_, by decide, by decide, by decide⟩
  · -- anchor cell after the merge
    have hchain : ∃ tb row, d[T]? = some tb ∧
        tb[rectMinRow (p :: ps)]? = some row ∧
        row[rectMinCol (p :: ps)]? = some acell := by
      unfold cellAt anchorPos at hacell
      simp only at hacell
      cases htb : d[T]? with
      | none => rw [htb] at hacell; simp at hacell
      | some tb =>
        rw [htb, Option.some_bind] at hacell
        cases hrow : tb[rectMinRow (p :: ps)]? with
        | none => rw [hrow] at hacell; simp at hacell
        | some row =>
          rw [hrow, Option.some_bind] at hacell
          exact ⟨tb, row, rfl, hrow, hacell⟩
    obtain ⟨tb, rowR, htb, hrow, hcellR⟩ := hchain
    have hanchorcell : cellAt (handleMerge d) (anchorPos (p :: ps) T)
        = some (mergeUpd (rectMaxCol (p :: ps) - rectMinCol (p :: ps) + 1)
            (rectMaxRow (p :: ps) - rectMinRow (p :: ps) + 1)
            (mergeExtra d ((p :: ps).filter
              (fun q => q ≠ anchorPos (p :: ps) T))) acell) := by
      rw [hres]
      unfold cellAt anchorPos
      simp only
      rw [mapI_getElem?, htb]
      simp only [Option.map_some', Option.some_bind, Nat.zero_add]
      rw [mapI_getElem?, hrow]
      simp only [Option.map_some', Option.some_bind, Nat.zero_add]
      apply mergeRebuild_getElem_anchor _ _ _ T (rectMinRow (p :: ps)) rowR 0
        (rectMinCol (p :: ps)) acell hcellR
      · intro ci hci
        constructor
        · intro hq
          have := congrArg CellRef.c hq
          simp only [anchorPos, Nat.zero_add] at this
          omega
        · intro hq
          rw [List.mem_filter] at hq
          have hle := rectMinCol_le (p :: ps) _ hq.1
          simp only [Nat.zero_add] at hle
          omega
      · simp [anchorPos]
    refine ⟨_, hanchorcell, ?_, ?_, rfl, rfl, rfl, rfl, rfl⟩
    · simp only [mergeUpd]
      by_cases hw : rectMaxCol (p :: ps) - rectMinCol (p :: ps) + 1 > 1
      · rw [if_pos hw]
        rfl
      · rw [if_neg hw, hcsp]
        simp only [Option.getD_none]
        omega
    · simp only [mergeUpd]
      by_cases hh : rectMaxRow (p :: ps) - rectMinRow (p :: ps) + 1 > 1
      · rw [if_pos hh]
        rfl
      · rw [if_neg hh, hrsp]
        simp only [Option.getD_none]
        omega
  · -- no tagged cell remains
    rw [hres, List.eq_nil_iff_forall_not_mem]
    intro q hq
    rw [mem_selectedRefs_cellAt] at hq
    obtain ⟨cell, hcell, hselflag⟩ := hq
    unfold cellAt at hcell
    rw [mapI_getElem?] at hcell
    cases hqt : d[q.t]? with
    | none => rw [hqt] at hcell; simp at hcell
    | some tb2 =>
      rw [hqt] at hcell
      simp only [Option.map_some', Option.some_bind, Nat.zero_add] at hcell
      rw [mapI_getElem?] at hcell
      cases hqr : tb2[q.r]? with
      | none => rw [hqr] at hcell; simp at hcell
      | some row2 =>
        rw [hqr] at hcell
        simp only [Option.map_some', Option.some_bind, Nat.zero_add] at hcell
        obtain ⟨hlt2, hEq⟩ := List.getElem?_eq_some.mp hcell
        have hmem : cell ∈ (mapI (mergeRebuildCell (anchorPos (p :: ps) T)
            ((p :: ps).filter (fun q => q ≠ anchorPos (p :: ps) T))
            (mergeUpd (rectMaxCol (p :: ps) - rectMinCol (p :: ps) + 1)
              (rectMaxRow (p :: ps) - rectMinRow (p :: ps) + 1)
              (mergeExtra d ((p :: ps).filter
                (fun q => q ≠ anchorPos (p :: ps) T))))
            q.t q.r) 0 row2).flatten := by
          rw [← hEq]
          exact List.getElem_mem hlt2
        have hunsel := mergeRebuild_unselected _ _ _ q.t q.r row2 0
          (by intro cell2; rfl)
          (by
            intro ci cell2 hc2 hs2
            have hqin : CellRef.mk q.t q.r ci ∈ p :: ps := by
              rw [← hsplit, mem_selectedRefs]
              exact ⟨tb2, hqt, row2, hqr, cell2, hc2, hs2⟩
            by_cases hqa : CellRef.mk q.t q.r (0 + ci) = anchorPos (p :: ps) T
            · exact Or.inl hqa
            · refine Or.inr ?_
              rw [List.mem_filter]
              refine ⟨by simpa using hqin, by simpa using hqa⟩)
          cell hmem
        rw [hunsel] at hselflag
        simp at hselflag
  · -- counting the removed cells
    rw [hres]
    unfold totalCells
    have hbal := mergeRebuild_doc_balance (p :: ps) (anchorPos (p :: ps) T)
      ((p :: ps).filter (fun q => q ≠ anchorPos (p :: ps) T))
      (mergeUpd (rectMaxCol (p :: ps) - rectMinCol (p :: ps) + 1)
        (rectMaxRow (p :: ps) - rectMinRow (p :: ps) + 1)
        (mergeExtra d ((p :: ps).filter
          (fun q => q ≠ anchorPos (p :: ps) T))))
      d 0 hothers htop
      (by
        intro m tb htb2 n row hrow2 ci cell hc2
        simpa using hseldoc m tb htb2 n row hrow2 ci cell hc2)
    have hselstruct : (mapI (fun t tb =>
        (mapI (fun r row =>
          (mapI (fun c cell =>
            if cell.selected then [CellRef.mk t r c] else []) 0 row).flatten)
          0 tb).flatten) 0 d).flatten = selectedRefs d := rfl
    rw [hselstruct, hsplit] at hbal
    have hnd : (p :: ps).Nodup := by
      have := selectedRefs_nodup d
      rwa [hsplit] at this
    rw [filter_ne_length_of_nodup (p :: ps) (anchorPos (p :: ps) T) hnd htop]
      at hbal
    exact hbal

/-- One 2 by 2 table with only the cells at (0,1) and (1,0) tagged: a
selection whose bounding rectangle corner (0,0) is not tagged. -/
def counter7Doc : Doc :=
  [[[⟨"td", "", "", "a", false, none, none⟩,
     ⟨"td", "", "", "b", true, none, none⟩],
    [⟨"td", "", "", "c", true, none, none⟩,
     ⟨"td", "", "", "d", false, none, none⟩]]]

/-- C7 counterexample: two tagged cells in one table, yet handleMerge
removes no cell, sets no span and untags nothing (the document is returned
unchanged), because no tagged cell sits at the top left corner of the
bounding rectangle. -/
theorem c7_merge_no_anchor_counterexample :
    2 ≤ (selectedRefs counter7Doc).length ∧
    (∀ q ∈ selectedRefs counter7Doc, q.t = 0) ∧
    handleMerge counter7Doc = counter7Doc ∧
    totalCells (handleMerge counter7Doc) = totalCells counter7Doc ∧
    selectedRefs (handleMerge counter7Doc) ≠ [] :=
  ⟨by decide, by decide, by decide, by decide, by decide⟩

/-- One table holding one row of two tagged text cells. -/
def witness7Doc : Doc :=
  [[[⟨"td", "", "", "x", true, none, none⟩,
     ⟨"td", "", "", "y", true, none, none⟩]]]

theorem c7_merge_postcondition_witness :
    (∃ mcell : Cell,
      cellAt (handleMerge witness7Doc)
        (anchorPos (selectedRefs witness7Doc) 0) = some mcell ∧
      mcell.colspan.getD 1
        = rectMaxCol (selectedRefs witness7Doc)
          - rectMinCol (selectedRefs witness7Doc) + 1 ∧
      mcell.rowspan.getD 1
        = rectMaxRow (selectedRefs witness7Doc)
          - rectMinRow (selectedRefs witness7Doc) + 1 ∧
      mcell.selected = false ∧
      mcell.tag = (⟨"td", "", "", "x", true, none, none⟩ : Cell).tag ∧
      mcell.className
        = (⟨"td", "", "", "x", true, none, none⟩ : Cell).className ∧
      mcell.style = (⟨"td", "", "", "x", true, none, none⟩ : Cell).style ∧
      mcell.html = (⟨"td", "", "", "x", true, none, none⟩ : Cell).html
        ++ mergeExtra witness7Doc ((selectedRefs witness7Doc).filter
          (fun q => q ≠ anchorPos (selectedRefs witness7Doc) 0))) ∧
    selectedRefs (handleMerge witness7Doc) = [] ∧
    totalCells (handleMerge witness7Doc)
      + ((selectedRefs witness7Doc).length - 1) = totalCells witness7Doc ∧
    cellAt (handleMerge tagged3Doc) ⟨0, 0, 0⟩
      = some ⟨"td", "", "", "<br>", false, some 2, some 2⟩ ∧
    ((table3Doc.getD 0 []).take 2).map List.length = [3, 3] ∧
    (((handleMerge tagged3Doc).getD 0 []).take 2).map List.length = [2, 1] :=
  c7_merge_postcondition witness7Doc 0 ⟨"td", "", "", "x", true, none, none⟩
    (by decide) (by decide) (by decide) (by decide) (by decide) (by decide)

end RichEditorLab
